import Mathlib

/-!
Shallow embedding of the codec layer of the gd.py repository: the RobTop
delimited-text codec (versions, progress lists, replay recordings) and the
binary object-variant codec, together with proofs about their round-trip
behaviour.  Machine integers are modelled as `ℕ`/`ℤ`; `f32` fields are
modelled by their 32-bit patterns (`ℕ` below `2 ^ 32`), since the binary
codec moves them byte-for-byte.  Fallible operations return `Option`.

The file is organised as definitions first (translated from the source
under `src/`, or, where marked, modelled from the spec for repository
modules that are not under `src/`), followed by the theorems.
-/

/-! ## Definitions -/

/-! ### Decimal text form of integers

The RobTop text codec serialises integers with Python's built-in
`str`/`int`.  The functions below give the decimal writing and parsing of
integers over `List Char`. -/

/-- The character of a single decimal digit (`0 ≤ d ≤ 9`). -/
def digitCh (d : ℕ) : Char := Char.ofNat (48 + d)

/-- Numeric value of a decimal digit character. -/
def digitVal (c : Char) : ℕ := c.toNat - 48

/-- Fuelled digit emitter: digits of `n`, most significant first.  The fuel
bounds the recursion; `n` itself is always enough fuel. -/
def natReprAux : ℕ → ℕ → List Char
  | 0, _ => []
  | _ + 1, 0 => []
  | f + 1, n + 1 => natReprAux f ((n + 1) / 10) ++ [digitCh ((n + 1) % 10)]

/-- Decimal representation of a natural number (Python `str` on a
non-negative `int`). -/
def natRepr (n : ℕ) : List Char := if n = 0 then ['0'] else natReprAux n n

/-- Decimal representation of an integer (Python `str` on an `int`). -/
def intRepr (n : ℤ) : List Char :=
  if n < 0 then '-' :: natRepr n.natAbs else natRepr n.toNat

/-- Parsing of a non-negative decimal numeral: fails on the empty string and
on any non-digit character (Python `int` raising `ValueError`). -/
def parseNat (s : List Char) : Option ℕ :=
  if s ≠ [] ∧ s.all Char.isDigit then
    some (s.foldl (fun a c => 10 * a + digitVal c) 0)
  else none

/-- Parsing of a decimal integer with an optional leading minus sign
(Python `int` on the strings produced by this codec). -/
def parseInt (s : List Char) : Option ℤ :=
  match s with
  | c :: t =>
    if c = '-' then (parseNat t).map (fun n => -Int.ofNat n)
    else (parseNat (c :: t)).map Int.ofNat
  | [] => none

/-! ### Versions (`src/gd/versions.py`)

`Version` carries a major and minor number; the attrs validators
`check_major`/`check_minor` reject `major < 0`, `minor < 0` and
`minor ≥ BASE` (`BASE = 10`), so construction is fallible.  Python's
`divmod` for a positive modulus agrees with `Int` division (`/`, `%`,
which are Euclidean here). -/

structure Version where
  major : ℤ
  minor : ℤ
deriving DecidableEq

/-- Construction of a `Version`, running the `check_major`/`check_minor`
validators of `src/gd/versions.py`. -/
def Version.make (major minor : ℤ) : Option Version :=
  if major < 0 then none
  else if minor < 0 then none
  else if 10 ≤ minor then none
  else some ⟨major, minor⟩

/-- `Version.from_value`: `divmod` by `BASE = 10`, then construct. -/
def Version.from_value (value : ℤ) : Option Version :=
  Version.make (value / 10) (value % 10)

/-- `Version.to_value`: `major * BASE + minor`. -/
def Version.to_value (v : Version) : ℤ := v.major * 10 + v.minor

/-- `Version.from_robtop`: parse the decimal string, then `from_value`. -/
def Version.from_robtop (s : List Char) : Option Version :=
  (parseInt s).bind Version.from_value

/-- `Version.to_robtop`: decimal string of `to_value`. -/
def Version.to_robtop (v : Version) : List Char := intRepr v.to_value

/-- `GameVersion` is a `Version` with a historical RobTop encoding. -/
abbrev GameVersion := Version

/-- `GameVersion.from_robtop_value` (`src/gd/versions.py`): the historical
decoding table.  `cls()` builds the default `(0, 0)`; raw values `8` and
`9` raise `ValueError`. -/
def GameVersion.from_robtop_value (value : ℤ) : Option Version :=
  if value = 0 then Version.make 0 0
  else if 0 < value ∧ value < 8 then Version.make 1 (value - 1)
  else if value < 10 then none
  else if value = 10 then Version.make 1 7
  else if value = 11 then Version.make 1 8
  else Version.from_value value

/-- `GameVersion.to_robtop_value`: the historical encoding table. -/
def GameVersion.to_robtop_value (v : Version) : ℤ :=
  if v.major = 1 then
    if v.minor = 8 then 11
    else if v.minor = 7 then 10
    else if v.minor < 7 then v.minor + 1
    else v.to_value
  else v.to_value

/-- `GameVersion.from_robtop`: parse the decimal string, then decode. -/
def GameVersion.from_robtop (s : List Char) : Option Version :=
  (parseInt s).bind GameVersion.from_robtop_value

/-- `GameVersion.to_robtop`: decimal string of `to_robtop_value`. -/
def GameVersion.to_robtop (v : Version) : List Char :=
  intRepr (GameVersion.to_robtop_value v)

/-! ### Progress lists (`src/gd/progress.py`)

A `Progress` is an ordered list of checkpoint percentages (signed 8-bit
integers, modelled as `ℤ`). -/

/-- `Progress.to_robtop`: the separator-joined decimal forms, in sequence
order.  Modelled from the spec: the joining utility `concat_progress`
(`gd/models_utils.py`) is not under `src/`; per §4.3 it joins the fields
with the configured one-character separator, which is a parameter here. -/
def Progress.to_robtop (sep : Char) (p : List ℤ) : List Char :=
  [sep].intercalate (p.map intRepr)

/-- `Progress.from_robtop`: split at the separator and parse each field as
an integer.  Modelled from the spec: the splitting utility
`split_progress` (`gd/models_utils.py`) is not under `src/`; it is
Python's `str.split` at the configured separator, which on an empty
string yields one empty chunk, exactly like `List.splitOn`. -/
def Progress.from_robtop (sep : Char) (s : List Char) : Option (List ℤ) :=
  (s.splitOn sep).mapM parseInt

/-! ### Binary primitives

Modelled from the spec: the byte reader/writer (`gd/binary_utils.py`) is
not under `src/`.  Per §4.1 it reads/writes fixed-width little-endian
integers over a forward-only cursor, failing with a truncation error when
the source is exhausted; per §7 values wider than the reserved width are
silently truncated by masking on write.  A byte stream is a `List ℕ` of
byte values; `f32` fields travel as their 4-byte bit patterns. -/

/-- Byte stream. -/
abbrev Bytes := List ℕ

/-- Modelled from the spec: `write_u8`. -/
def writeU8 (v : ℕ) : Bytes := [v % 256]

/-- Modelled from the spec: `write_u16`, little-endian. -/
def writeU16 (v : ℕ) : Bytes := [v % 256, v / 256 % 256]

/-- Modelled from the spec: `write_f32`, the four bytes of the bit
pattern, little-endian. -/
def writeF32 (v : ℕ) : Bytes := [v % 256, v / 256 % 256, v / 65536 % 256, v / 16777216 % 256]

/-- Modelled from the spec: `read_u8`; fails on an exhausted source. -/
def readU8 : Bytes → Option (ℕ × Bytes)
  | b :: t => some (b, t)
  | [] => none

/-- Modelled from the spec: `read_u16`, little-endian. -/
def readU16 : Bytes → Option (ℕ × Bytes)
  | b0 :: b1 :: t => some (b0 + 256 * b1, t)
  | _ => none

/-- Modelled from the spec: `read_f32` as the 32-bit pattern. -/
def readF32 : Bytes → Option (ℕ × Bytes)
  | b0 :: b1 :: b2 :: b3 :: t => some (b0 + 256 * b1 + 65536 * b2 + 16777216 * b3, t)
  | _ => none

/-- Reads `n` consecutive `u16` values (the group-id list). -/
def readU16List : ℕ → Bytes → Option (List ℕ × Bytes)
  | 0, s => some ([], s)
  | n + 1, s => do
    let (v, s1) ← readU16 s
    let (vs, s2) ← readU16List n s1
    some (v :: vs, s2)

/-- Reads `n` raw bytes (the `Text` content). -/
def readBytes : ℕ → Bytes → Option (Bytes × Bytes)
  | 0, s => some ([], s)
  | n + 1, b :: t => (readBytes n t).map (fun p => (b :: p.1, p.2))
  | _ + 1, [] => none

/-! ### Object variants (`src/gd/api/objects.py`)

The base `Object` record and the leaf variants.  Field names follow the
source.  `x`, `y`, `rotation`, `scale` (and the other `f32` fields) are
the 32-bit patterns of the floats; `z_layer` is the numeric code of the
`ZLayer` enumeration (`gd/enums.py` is not under `src/`; the spec calls it
a small enumeration, and the codec only moves its `.value`, so it is
modelled by that value). -/

def H_FLIPPED_BIT : ℕ := 1
def V_FLIPPED_BIT : ℕ := 2
def DO_NOT_FADE_BIT : ℕ := 4
def DO_NOT_ENTER_BIT : ℕ := 8
def GROUP_PARENT_BIT : ℕ := 16
def HIGH_DETAIL_BIT : ℕ := 32
def GLOW_BIT : ℕ := 64
def SPECIAL_CHECKED_BIT : ℕ := 128

/-- `Z_ORDER_MASK = 0b0001111111111111`. -/
def Z_ORDER_MASK : ℕ := 8191

/-- `Z_ORDER_BITS = Z_ORDER_MASK.bit_length() = 13`. -/
def Z_ORDER_BITS : ℕ := 13

/-- Modelled from the spec: the HSV adjustment sub-record
(`gd/api/hsv.py` is not under `src/`).  §4.2 fixes only that it is a
fixed-size self-encoding record of hue/saturation/brightness adjustments;
it is modelled as three `u16` fields. -/
structure HSV where
  h : ℕ
  s : ℕ
  v : ℕ
deriving DecidableEq

/-- Modelled from the spec: the HSV sub-record encodes its three fields in
order. -/
def HSV.to_binary (x : HSV) : Bytes := writeU16 x.h ++ writeU16 x.s ++ writeU16 x.v

/-- Modelled from the spec: reading the HSV sub-record back. -/
def HSV.from_binary (s : Bytes) : Option (HSV × Bytes) := do
  let (h, s1) ← readU16 s
  let (sa, s2) ← readU16 s1
  let (v, s3) ← readU16 s2
  some (⟨h, sa, v⟩, s3)

/-- Bit widths of the modelled HSV fields. -/
def HSV.Valid (x : HSV) : Prop := x.h < 65536 ∧ x.s < 65536 ∧ x.v < 65536

/-- The base `Object` record.  `groups` is a Python `set`, modelled as a
`Finset`. -/
structure Object where
  id : ℕ
  x : ℕ
  y : ℕ
  rotation : ℕ
  h_flipped : Bool
  v_flipped : Bool
  scale : ℕ
  do_not_fade : Bool
  do_not_enter : Bool
  z_layer : ℕ
  z_order : ℕ
  base_editor_layer : ℕ
  additional_editor_layer : ℕ
  base_color_id : ℕ
  detail_color_id : ℕ
  base_color_hsv : HSV
  detail_color_hsv : HSV
  groups : Finset ℕ
  group_parent : Bool
  high_detail : Bool
  glow : Bool
  special_checked : Bool
  link_id : ℕ
deriving DecidableEq

/-- The flag byte of `Object.to_binary`: successive `value |= BIT` under
each boolean, in source order. -/
def Object.flag_byte (o : Object) : ℕ :=
  let value := 0
  let value := if o.h_flipped then value ||| H_FLIPPED_BIT else value
  let value := if o.v_flipped then value ||| V_FLIPPED_BIT else value
  let value := if o.do_not_fade then value ||| DO_NOT_FADE_BIT else value
  let value := if o.do_not_enter then value ||| DO_NOT_ENTER_BIT else value
  let value := if o.group_parent then value ||| GROUP_PARENT_BIT else value
  let value := if o.high_detail then value ||| HIGH_DETAIL_BIT else value
  let value := if o.glow then value ||| GLOW_BIT else value
  let value := if o.special_checked then value ||| SPECIAL_CHECKED_BIT else value
  value

/-- The fields of `Object.to_binary` written before the group list:
id, position, rotation, scale, flag byte, z word, editor layers, colour
ids and the two HSV sub-records, in source order. -/
def Object.header_bytes (o : Object) : Bytes :=
  writeU16 o.id ++ writeF32 o.x ++ writeF32 o.y ++ writeF32 o.rotation ++
    writeF32 o.scale ++ writeU8 o.flag_byte ++
    writeU16 ((o.z_order &&& Z_ORDER_MASK) ||| (o.z_layer <<< Z_ORDER_BITS)) ++
    writeU16 o.base_editor_layer ++ writeU16 o.additional_editor_layer ++
    writeU16 o.base_color_id ++ writeU16 o.detail_color_id ++
    o.base_color_hsv.to_binary ++ o.detail_color_hsv.to_binary

/-- `Object.to_binary`: the header fields, then the group count, the group
ids in ascending order (`sorted(self.groups)`), and the link id. -/
def Object.to_binary (o : Object) : Bytes :=
  o.header_bytes ++ writeU16 o.groups.card ++
    (o.groups.sort (· ≤ ·)).flatMap writeU16 ++ writeU16 o.link_id

/-- The first reads of `Object.from_binary`: id (`u16`), x, y, rotation,
scale (`f32` each) and the flag byte, in source order.  (The decoder is
split into a few helpers purely because very long monadic chains choke
this toolchain's code generator; the reads and their order are exactly
those of the source.) -/
def Object.read_head (s : Bytes) : Option ((ℕ × ℕ × ℕ × ℕ × ℕ × ℕ) × Bytes) := do
  let p1 ← readU16 s
  let p2 ← readF32 p1.2
  let p3 ← readF32 p2.2
  let p4 ← readF32 p3.2
  let p5 ← readF32 p4.2
  let p6 ← readU8 p5.2
  some ((p1.1, p2.1, p3.1, p4.1, p5.1, p6.1), p6.2)

/-- The middle reads of `Object.from_binary`: the packed z word, the two
editor layers, the two colour slot ids and the two HSV sub-records. -/
def Object.read_mid (s : Bytes) :
    Option ((ℕ × ℕ × ℕ × ℕ × ℕ × HSV × HSV) × Bytes) := do
  let p1 ← readU16 s
  let p2 ← readU16 p1.2
  let p3 ← readU16 p2.2
  let p4 ← readU16 p3.2
  let p5 ← readU16 p4.2
  let p6 ← HSV.from_binary p5.2
  let p7 ← HSV.from_binary p6.2
  some ((p1.1, p2.1, p3.1, p4.1, p5.1, p6.1, p7.1), p7.2)

/-- `Object.from_binary`: reads the same fields in order; each flag bit is
tested with `value & bit == bit`, the z word is split with shift and mask,
and the group ids are read into a set. -/
def Object.from_binary (s : Bytes) : Option (Object × Bytes) := do
  let q1 ← Object.read_head s
  let q2 ← Object.read_mid q1.2
  let q3 ← readU16 q2.2
  let q4 ← readU16List q3.1 q3.2
  let q5 ← readU16 q4.2
  let id := q1.1.1
  let x := q1.1.2.1
  let y := q1.1.2.2.1
  let rotation := q1.1.2.2.2.1
  let scale := q1.1.2.2.2.2.1
  let value := q1.1.2.2.2.2.2
  let h_flipped := value &&& H_FLIPPED_BIT == H_FLIPPED_BIT
  let v_flipped := value &&& V_FLIPPED_BIT == V_FLIPPED_BIT
  let do_not_fade := value &&& DO_NOT_FADE_BIT == DO_NOT_FADE_BIT
  let do_not_enter := value &&& DO_NOT_ENTER_BIT == DO_NOT_ENTER_BIT
  let group_parent := value &&& GROUP_PARENT_BIT == GROUP_PARENT_BIT
  let high_detail := value &&& HIGH_DETAIL_BIT == HIGH_DETAIL_BIT
  let glow := value &&& GLOW_BIT == GLOW_BIT
  let special_checked := value &&& SPECIAL_CHECKED_BIT == SPECIAL_CHECKED_BIT
  let z_layer_order := q2.1.1
  let z_layer := z_layer_order >>> Z_ORDER_BITS
  let z_order := z_layer_order &&& Z_ORDER_MASK
  let base_editor_layer := q2.1.2.1
  let additional_editor_layer := q2.1.2.2.1
  let base_color_id := q2.1.2.2.2.1
  let detail_color_id := q2.1.2.2.2.2.1
  let base_color_hsv := q2.1.2.2.2.2.2.1
  let detail_color_hsv := q2.1.2.2.2.2.2.2
  let group_list := q4.1
  let link_id := q5.1
  some (
    { id := id, x := x, y := y, rotation := rotation, scale := scale,
      h_flipped := h_flipped, v_flipped := v_flipped,
      do_not_fade := do_not_fade, do_not_enter := do_not_enter,
      z_layer := z_layer, z_order := z_order,
      base_editor_layer := base_editor_layer,
      additional_editor_layer := additional_editor_layer,
      base_color_id := base_color_id, detail_color_id := detail_color_id,
      base_color_hsv := base_color_hsv, detail_color_hsv := detail_color_hsv,
      groups := group_list.toFinset,
      group_parent := group_parent, high_detail := high_detail,
      glow := glow, special_checked := special_checked,
      link_id := link_id }, q5.2)

/-- The valid field assignments of the base record: every packed sub-field
fits its bit width (id and the other `u16` fields below `2 ^ 16`, `f32`
patterns below `2 ^ 32`, z order 13 bits, z layer 3 bits so the packed
word is a `u16`, group ids and the group count `u16`). -/
def Object.Valid (o : Object) : Prop :=
  o.id < 65536 ∧ o.x < 4294967296 ∧ o.y < 4294967296 ∧
    o.rotation < 4294967296 ∧ o.scale < 4294967296 ∧
    o.z_layer < 8 ∧ o.z_order < 8192 ∧
    o.base_editor_layer < 65536 ∧ o.additional_editor_layer < 65536 ∧
    o.base_color_id < 65536 ∧ o.detail_color_id < 65536 ∧
    o.base_color_hsv.Valid ∧ o.detail_color_hsv.Valid ∧
    (∀ g ∈ o.groups, g < 65536) ∧ o.groups.card < 65536 ∧ o.link_id < 65536

/-- `Coin`: appends `coin_id` as a `u8`. -/
structure Coin extends Object where
  coin_id : ℕ
deriving DecidableEq

def Coin.to_binary (c : Coin) : Bytes := c.toObject.to_binary ++ writeU8 c.coin_id

def Coin.from_binary (s : Bytes) : Option (Coin × Bytes) := do
  let (o, s1) ← Object.from_binary s
  let (coin_id, s2) ← readU8 s1
  some ({ toObject := o, coin_id := coin_id }, s2)

def Coin.Valid (c : Coin) : Prop := c.toObject.Valid ∧ c.coin_id < 256

/-- `Text`: appends the `u16` byte length of the UTF-8 encoded content and
the bytes themselves.  The content is modelled by its encoded bytes; the
spec treats transcoding as an external collaborator. -/
structure Text extends Object where
  content : Bytes
deriving DecidableEq

def Text.to_binary (t : Text) : Bytes :=
  t.toObject.to_binary ++ writeU16 t.content.length ++ t.content

def Text.from_binary (s : Bytes) : Option (Text × Bytes) := do
  let (o, s1) ← Object.from_binary s
  let (length, s2) ← readU16 s1
  let (content, s3) ← readBytes length s2
  some ({ toObject := o, content := content }, s3)

def Text.Valid (t : Text) : Prop :=
  t.toObject.Valid ∧ t.content.length < 65536 ∧ ∀ b ∈ t.content, b < 256

def SMOOTH_BIT : ℕ := 1

/-- `Teleport`: appends the offset (`f32`) and a flag byte whose bit 0 is
`smooth`. -/
structure Teleport extends Object where
  offset : ℕ
  smooth : Bool
deriving DecidableEq

def Teleport.flag_byte (t : Teleport) : ℕ :=
  let value := 0
  let value := if t.smooth then value ||| SMOOTH_BIT else value
  value

def Teleport.to_binary (t : Teleport) : Bytes :=
  t.toObject.to_binary ++ writeF32 t.offset ++ writeU8 t.flag_byte

def Teleport.from_binary (s : Bytes) : Option (Teleport × Bytes) := do
  let (o, s1) ← Object.from_binary s
  let (offset, s2) ← readF32 s1
  let (value, s3) ← readU8 s2
  some ({ toObject := o, offset := offset,
          smooth := value &&& SMOOTH_BIT == SMOOTH_BIT }, s3)

def Teleport.Valid (t : Teleport) : Prop :=
  t.toObject.Valid ∧ t.offset < 4294967296

/-- `AnimatedObject` adds `randomize_start` and `animation_speed` as plain
in-memory fields but defines no binary methods of its own. -/
structure AnimatedObject extends Object where
  randomize_start : Bool
  animation_speed : ℕ
deriving DecidableEq

/-- `AnimatedObject` inherits `Object.to_binary` unchanged: only the base
fields are written. -/
def AnimatedObject.to_binary (a : AnimatedObject) : Bytes := a.toObject.to_binary

/-- `AnimatedObject` inherits `Object.from_binary`: `cls(...)` fills the
two extra fields with their declared defaults (`False`, `0.0`). -/
def AnimatedObject.from_binary (s : Bytes) : Option (AnimatedObject × Bytes) :=
  (Object.from_binary s).map
    (fun p => ({ toObject := p.1, randomize_start := false, animation_speed := 0 }, p.2))

/-- `Orb` composes `HasMultiActivate` into the base record and defines no
binary methods of its own. -/
structure Orb extends Object where
  multi_activate : Bool
deriving DecidableEq

def Orb.to_binary (o : Orb) : Bytes := o.toObject.to_binary

def Orb.from_binary (s : Bytes) : Option (Orb × Bytes) :=
  (Object.from_binary s).map
    (fun p => ({ toObject := p.1, multi_activate := false }, p.2))

def DYNAMIC_BIT : ℕ := 32768
def BLOCK_ID_MASK : ℕ := 32767

/-- `CollisionBlock`: appends one `u16` multiplexing the block id (low 15
bits) with the `dynamic` flag (bit 15). -/
structure CollisionBlock extends Object where
  block_id : ℕ
  dynamic : Bool
deriving DecidableEq

def CollisionBlock.pack_value (cb : CollisionBlock) : ℕ :=
  let value := cb.block_id &&& BLOCK_ID_MASK
  let value := if cb.dynamic then value ||| DYNAMIC_BIT else value
  value

def CollisionBlock.to_binary (cb : CollisionBlock) : Bytes :=
  cb.toObject.to_binary ++ writeU16 cb.pack_value

def CollisionBlock.from_binary (s : Bytes) : Option (CollisionBlock × Bytes) := do
  let (o, s1) ← Object.from_binary s
  let (value, s2) ← readU16 s1
  some ({ toObject := o, block_id := value &&& BLOCK_ID_MASK,
          dynamic := value &&& DYNAMIC_BIT == DYNAMIC_BIT }, s2)

def CollisionBlock.Valid (cb : CollisionBlock) : Prop :=
  cb.toObject.Valid ∧ cb.block_id < 32768

def TOUCH_TRIGGERED_BIT : ℕ := 1
def SPAWN_TRIGGERED_BIT : ℕ := 2
def MULTI_TRIGGER_BIT : ℕ := 4

/-- `Trigger`: appends one flag byte packing `touch_triggered` (bit 0),
`spawn_triggered` (bit 1) and `multi_trigger` (bit 2). -/
structure Trigger extends Object where
  touch_triggered : Bool
  spawn_triggered : Bool
  multi_trigger : Bool
deriving DecidableEq

def Trigger.flag_byte (t : Trigger) : ℕ :=
  let value := 0
  let value := if t.touch_triggered then value ||| TOUCH_TRIGGERED_BIT else value
  let value := if t.spawn_triggered then value ||| SPAWN_TRIGGERED_BIT else value
  let value := if t.multi_trigger then value ||| MULTI_TRIGGER_BIT else value
  value

def Trigger.to_binary (t : Trigger) : Bytes :=
  t.toObject.to_binary ++ writeU8 t.flag_byte

def Trigger.from_binary (s : Bytes) : Option (Trigger × Bytes) := do
  let (o, s1) ← Object.from_binary s
  let (value, s2) ← readU8 s1
  some ({ toObject := o,
          touch_triggered := value &&& TOUCH_TRIGGERED_BIT == TOUCH_TRIGGERED_BIT,
          spawn_triggered := value &&& SPAWN_TRIGGERED_BIT == SPAWN_TRIGGERED_BIT,
          multi_trigger := value &&& MULTI_TRIGGER_BIT == MULTI_TRIGGER_BIT }, s2)

def Trigger.Valid (t : Trigger) : Prop := t.toObject.Valid

def TRIGGER_ON_EXIT_BIT : ℕ := 32768

/-- `CollisionTrigger`: composes `HasActivateGroup` and `HasTargetGroup`
(whose `activate_group` and `target_group_id` fields the codec never
writes or reads); after the trigger header, appends `block_a_id` masked
to 15 bits and one `u16` multiplexing `block_b_id` (low 15 bits) with
`trigger_on_exit` (bit 15). -/
structure CollisionTrigger extends Trigger where
  activate_group : Bool
  target_group_id : ℕ
  block_a_id : ℕ
  block_b_id : ℕ
  trigger_on_exit : Bool
deriving DecidableEq

def CollisionTrigger.pack_value_b (ct : CollisionTrigger) : ℕ :=
  let value := ct.block_b_id &&& BLOCK_ID_MASK
  let value := if ct.trigger_on_exit then value ||| TRIGGER_ON_EXIT_BIT else value
  value

def CollisionTrigger.to_binary (ct : CollisionTrigger) : Bytes :=
  ct.toTrigger.to_binary ++ writeU16 (ct.block_a_id &&& BLOCK_ID_MASK) ++
    writeU16 ct.pack_value_b

def CollisionTrigger.from_binary (s : Bytes) : Option (CollisionTrigger × Bytes) := do
  let (t, s1) ← Trigger.from_binary s
  let (va, s2) ← readU16 s1
  let (vb, s3) ← readU16 s2
  some ({ toTrigger := t, activate_group := false, target_group_id := 0,
          block_a_id := va &&& BLOCK_ID_MASK,
          block_b_id := vb &&& BLOCK_ID_MASK,
          trigger_on_exit := vb &&& TRIGGER_ON_EXIT_BIT == TRIGGER_ON_EXIT_BIT }, s3)

def CollisionTrigger.Valid (ct : CollisionTrigger) : Prop :=
  ct.toObject.Valid ∧ ct.block_a_id < 32768 ∧ ct.block_b_id < 32768

instance (x : HSV) : Decidable x.Valid := by unfold HSV.Valid; infer_instance

instance (o : Object) : Decidable o.Valid := by unfold Object.Valid; infer_instance

instance (c : Coin) : Decidable c.Valid := by unfold Coin.Valid; infer_instance

instance (t : Text) : Decidable t.Valid := by unfold Text.Valid; infer_instance

instance (t : Teleport) : Decidable t.Valid := by unfold Teleport.Valid; infer_instance

instance (cb : CollisionBlock) : Decidable cb.Valid := by
  unfold CollisionBlock.Valid; infer_instance

instance (t : Trigger) : Decidable t.Valid := by unfold Trigger.Valid; infer_instance

instance (ct : CollisionTrigger) : Decidable ct.Valid := by
  unfold CollisionTrigger.Valid; infer_instance

/-- A concrete valid base object used by the concrete theorems. -/
def obj0 : Object :=
  { id := 1, x := 0, y := 0, rotation := 0, scale := 0,
    h_flipped := false, v_flipped := false,
    do_not_fade := false, do_not_enter := false,
    z_layer := 0, z_order := 0,
    base_editor_layer := 0, additional_editor_layer := 0,
    base_color_id := 0, detail_color_id := 0,
    base_color_hsv := ⟨0, 0, 0⟩, detail_color_hsv := ⟨0, 0, 0⟩,
    groups := ∅,
    group_parent := false, high_detail := false,
    glow := true, special_checked := false,
    link_id := 0 }

/-! ### Replay recordings (`src/gd/api/recording.py`)

`RecordingItem` carries a timestamp and three flags.  Its text grammar is
the anchored regex `RECORDING_ITEM_PATTERN`
(`[1 SEP]? DIGIT (DOT DIGIT*)? SEP [1]? SEP [;]?`), reimplemented below as
an explicit scanner with the regex's greedy alternative order, as §9 of
the spec recommends.  The separator `RECORDING_SEPARATOR` and the
affirmative marker `ONE` live in `gd/models_constants.py`, which is not
under `src/`; they are parameters here (`sep`, `one`).  The secondary
marker is the literal `;` of the source pattern.  Timestamps are floats;
they are modelled as `ℚ`. -/

structure RecordingItem where
  timestamp : ℚ
  previous : Bool
  next : Bool
  secondary : Bool
deriving DecidableEq

/-- Modelled from the spec: `float_str` (`gd/models_utils.py`, not under
`src/`) prints the timestamp as the shortest decimal representation that
round-trips, with at least one fractional digit as Python float printing
produces (`1.5 ↦ "1.5"`, `2 ↦ "2.0"`).  The bounded search finds the
least number of fractional digits making the scaled value integral. -/
def float_str (q : ℚ) : List Char :=
  let k := ((List.range 65).find? fun k => (q * 10 ^ k).den = 1).getD 64
  let k := max k 1
  let ds := natRepr (q * 10 ^ k).num.toNat
  let ds := List.replicate (k + 1 - ds.length) '0' ++ ds
  ds.take (ds.length - k) ++ '.' :: ds.drop (ds.length - k)

/-- Modelled from the spec: `int_bool` (`gd/models_utils.py`, not under
`src/`) is Python `bool(int(string))`: parse the integer, then test it
against zero; parsing can raise. -/
def int_bool (s : List Char) : Option Bool :=
  (parseInt s).map (fun n => n != 0)

/-- Python `float` on the tokens the timestamp grammar can produce:
digits, optionally a dot and more digits (`"1."` is accepted and means
`1.0`). -/
def parse_float (s : List Char) : Option ℚ :=
  match s.splitOn '.' with
  | [ip] => (parseNat ip).map (fun n => (n : ℚ))
  | [ip, fp] =>
    if fp.all Char.isDigit then
      (parseNat ip).map
        (fun n => (n : ℚ) + (fp.foldl (fun a c => 10 * a + digitVal c) 0 : ℚ) / 10 ^ fp.length)
    else none
  | _ => none

/-- The four named groups of one `RECORDING_ITEM` match; `none` means the
group did not participate (the `secondary` group itself matches the empty
string before the literal `;`). -/
structure RecordingMatch where
  previous : Option (List Char)
  timestamp : Option (List Char)
  next : Option (List Char)
  secondary : Option (List Char)
deriving DecidableEq

/-- The timestamp token `DIGIT (DOT DIGIT*)?` at the head of the input,
maximal munch.  This equals the greedy regex behaviour whenever the
separator is neither a digit nor the dot (then the digit run after the
dot never has to backtrack, and dropping the whole fractional part could
only succeed if the separator were the dot). -/
def matchTimestamp : List Char → Option (List Char × List Char)
  | c :: rest =>
    if c.isDigit then
      match rest with
      | '.' :: u => some (c :: '.' :: u.takeWhile Char.isDigit, u.dropWhile Char.isDigit)
      | _ => some ([c], rest)
    else none
  | [] => none

/-- `(?P<next>ONE)? SEP`: the greedy branch takes the marker followed by
the separator; otherwise the separator alone must be next. -/
def matchNextSep (sep one : Char) : List Char → Option (Option (List Char) × List Char)
  | a :: b :: t =>
    if a = one ∧ b = sep then some (some [one], t)
    else if a = sep then some (none, b :: t)
    else none
  | [a] => if a = sep then some (none, []) else none
  | [] => none

/-- `(?:(?P<secondary>);)?`: greedily consume the literal `;` when
present; the group captures the empty string. -/
def matchSecondary : List Char → Option (List Char) × List Char
  | ';' :: t => (some [], t)
  | s => (none, s)

/-- The item pattern after the optional previous part: timestamp,
separator, optional next marker with its separator, optional secondary
semicolon. -/
def matchCore (sep one : Char) (s : List Char) : Option (RecordingMatch × List Char) :=
  match matchTimestamp s with
  | none => none
  | some (ts, s1) =>
    match s1 with
    | [] => none
    | c :: s2 =>
      if c = sep then
        match matchNextSep sep one s2 with
        | none => none
        | some (nx, s3) =>
          let (sec, s4) := matchSecondary s3
          some ({ previous := none, timestamp := some ts, next := nx,
                  secondary := sec }, s4)
      else none

/-- One anchored-at-the-start match of the full item pattern:
`(?:(?P<previous>ONE)SEP)?` is greedy, falling back to the bare core when
the continuation fails, exactly like the regex engine. -/
def matchItem (sep one : Char) (s : List Char) : Option (RecordingMatch × List Char) :=
  match s with
  | a :: b :: t =>
    if a = one ∧ b = sep then
      match matchCore sep one t with
      | some (g, rest) => some ({ g with previous := some [one] }, rest)
      | none => matchCore sep one s
    else matchCore sep one s
  | _ => matchCore sep one s

/-- The scan of `finditer`: try a match at each position left to right;
on success continue at the match end (matches are non-overlapping and
never empty, since a timestamp digit and a separator are always
consumed).  The fuel argument makes the recursion structural; any fuel of
at least the input length gives the same result (`find_matches_fuel`). -/
def find_matches_aux (sep one : Char) : ℕ → List Char → List RecordingMatch
  | 0, _ => []
  | _ + 1, [] => []
  | f + 1, c :: t =>
    match matchItem sep one (c :: t) with
    | some (g, rest) => g :: find_matches_aux sep one f rest
    | none => find_matches_aux sep one f t

/-- All left-to-right non-overlapping matches of the item pattern
(`RECORDING_ITEM.finditer`). -/
def Recording.find_matches (sep one : Char) (s : List Char) : List RecordingMatch :=
  find_matches_aux sep one s.length s

/-- `RecordingItem.to_robtop_iterator`: the yielded tokens, in source
order — the marker when `previous` holds, the printed timestamp, the
marker or the empty token for `next`, one empty token, and one more empty
token when `secondary` holds. -/
def RecordingItem.to_robtop_tokens (one : Char) (it : RecordingItem) : List (List Char) :=
  (if it.previous then [[one]] else []) ++
    [float_str it.timestamp] ++
    [if it.next then [one] else []] ++
    [[]] ++
    (if it.secondary then [[]] else [])

/-- `RecordingItem.to_robtop`: `concat_recording` joins the tokens with
the separator (`gd/models_utils.py`, not under `src/`; modelled per §4.3
as the separator join). -/
def RecordingItem.to_robtop (sep one : Char) (it : RecordingItem) : List Char :=
  [sep].intercalate (it.to_robtop_tokens one)

/-- `RecordingItem.from_robtop_match`: absent previous/next groups mean
`false`, present ones go through `int_bool`; a missing timestamp group is
an internal error; the timestamp text goes through `float`; `secondary`
is the group's participation. -/
def RecordingItem.from_robtop_match (m : RecordingMatch) : Option RecordingItem := do
  let previous ← match m.previous with
                 | none => some false
                 | some p => int_bool p
  let ts ← m.timestamp
  let timestamp ← parse_float ts
  let next ← match m.next with
             | none => some false
             | some p => int_bool p
  some ⟨timestamp, previous, next, m.secondary.isSome⟩

/-- `RecordingItem.from_robtop`: `fullmatch` — the anchored match must
consume the whole string — then `from_robtop_match`. -/
def RecordingItem.from_robtop (sep one : Char) (s : List Char) : Option RecordingItem :=
  match matchItem sep one s with
  | some (g, rest) => if rest = [] then RecordingItem.from_robtop_match g else none
  | none => none

/-- `Recording.from_robtop`: convert every `finditer` match in order
(`iter_robtop` maps `from_robtop_match` over the matches and `cls(...)`
collects them, surfacing any conversion error). -/
def Recording.from_robtop (sep one : Char) (s : List Char) : Option (List RecordingItem) :=
  (Recording.find_matches sep one s).mapM RecordingItem.from_robtop_match

/-! ## Theorems -/

/-! ### Decimal helpers -/

theorem digitVal_digitCh {d : ℕ} (hd : d < 10) : digitVal (digitCh d) = d := by
  interval_cases d <;> decide

theorem isDigit_digitCh {d : ℕ} (hd : d < 10) : (digitCh d).isDigit = true := by
  interval_cases d <;> decide

theorem natReprAux_zero (f : ℕ) : natReprAux f 0 = [] := by
  cases f <;> rfl

theorem natReprAux_spec :
    ∀ f n, 0 < n → n ≤ f →
      (natReprAux f n).foldl (fun a c => 10 * a + digitVal c) 0 = n ∧
      (∀ c ∈ natReprAux f n, c.isDigit = true) ∧ natReprAux f n ≠ [] := by
  intro f
  induction f with
  | zero => intro n h1 h2; omega
  | succ f ih =>
    intro n h1 h2
    obtain ⟨m, rfl⟩ : ∃ m, n = m + 1 := ⟨n - 1, by omega⟩
    rw [natReprAux]
    by_cases hq : (m + 1) / 10 = 0
    · have hm : m + 1 < 10 := by omega
      rw [hq, natReprAux_zero]
      refine ⟨?_, ?_, by simp⟩
      · simp [digitVal_digitCh (Nat.mod_lt _ (by omega) : (m + 1) % 10 < 10)]
        omega
      · intro c hc
        simp at hc
        rw [hc]
        exact isDigit_digitCh (Nat.mod_lt _ (by omega))
    · have hle : (m + 1) / 10 ≤ f := by
        have := Nat.div_lt_self (Nat.succ_pos m) (by omega : 1 < 10)
        omega
      obtain ⟨hv, hdig, hne⟩ := ih ((m + 1) / 10) (by omega) hle
      refine ⟨?_, ?_, by simp⟩
      · rw [List.foldl_append, hv]
        simp [digitVal_digitCh (Nat.mod_lt _ (by omega) : (m + 1) % 10 < 10)]
        omega
      · intro c hc
        rcases List.mem_append.mp hc with h | h
        · exact hdig c h
        · simp at h
          rw [h]
          exact isDigit_digitCh (Nat.mod_lt _ (by omega))

theorem natRepr_spec (n : ℕ) :
    (natRepr n).foldl (fun a c => 10 * a + digitVal c) 0 = n ∧
    (∀ c ∈ natRepr n, c.isDigit = true) ∧ natRepr n ≠ [] := by
  by_cases h : n = 0
  · subst h; refine ⟨by decide, ?_, by decide⟩
    intro c hc
    simp [natRepr] at hc
    rw [hc]; decide
  · rw [natRepr, if_neg h]
    exact natReprAux_spec n n (by omega) le_rfl

theorem parseNat_natRepr (n : ℕ) : parseNat (natRepr n) = some n := by
  obtain ⟨hv, hdig, hne⟩ := natRepr_spec n
  rw [parseNat, if_pos ⟨hne, List.all_eq_true.mpr hdig⟩, hv]

theorem natRepr_head_isDigit (n : ℕ) :
    ∃ c t, natRepr n = c :: t ∧ c.isDigit = true := by
  obtain ⟨_, hdig, hne⟩ := natRepr_spec n
  obtain ⟨c, t, hct⟩ := List.exists_cons_of_ne_nil hne
  exact ⟨c, t, hct, hdig c (hct ▸ List.mem_cons_self c t)⟩

theorem parseInt_cons_of_ne {c : Char} (t : List Char) (h : c ≠ '-') :
    parseInt (c :: t) = (parseNat (c :: t)).map Int.ofNat := by
  rw [parseInt, if_neg h]

theorem parseInt_intRepr (z : ℤ) : parseInt (intRepr z) = some z := by
  by_cases hz : z < 0
  · rw [intRepr, if_pos hz]
    show parseInt ('-' :: natRepr z.natAbs) = some z
    rw [parseInt, if_pos rfl, parseNat_natRepr, Option.map_some']
    exact congrArg some (by rw [Int.ofNat_eq_coe]; omega)
  · rw [intRepr, if_neg hz]
    obtain ⟨c, t, hct, hc⟩ := natRepr_head_isDigit z.toNat
    have hcm : c ≠ '-' := by
      intro h
      rw [h] at hc
      exact absurd hc (by decide)
    rw [hct, parseInt_cons_of_ne t hcm, ← hct, parseNat_natRepr, Option.map_some']
    exact congrArg some (by rw [Int.ofNat_eq_coe]; omega)

theorem intRepr_mem {z : ℤ} {c : Char} (hc : c ∈ intRepr z) :
    c = '-' ∨ c.isDigit = true := by
  rw [intRepr] at hc
  by_cases hz : z < 0
  · rw [if_pos hz] at hc
    rcases List.mem_cons.mp hc with h | h
    · exact Or.inl h
    · exact Or.inr ((natRepr_spec z.natAbs).2.1 c h)
  · rw [if_neg hz] at hc
    exact Or.inr ((natRepr_spec z.toNat).2.1 c hc)

/-! ### Versions: claims C3, C4 and C7 -/

/-- C7: for every pair `(major, minor)` with `major ≥ 0` and
`0 ≤ minor < 10`, `Version(major, minor).to_value()` equals
`major * 10 + minor`; and for every integer `v ≥ 0`, `Version.from_value v`
succeeds and its `to_value` returns `v`. -/
theorem c7_version_value :
    (∀ major minor : ℤ, 0 ≤ major → 0 ≤ minor → minor < 10 →
      (Version.make major minor).map Version.to_value = some (major * 10 + minor)) ∧
    (∀ v : ℤ, 0 ≤ v →
      (Version.from_value v).map Version.to_value = some v) := by
  constructor
  · intro major minor h1 h2 h3
    rw [Version.make, if_neg (by omega), if_neg (by omega), if_neg (by omega)]
    rfl
  · intro v hv
    rw [Version.from_value, Version.make,
      if_neg (by omega), if_neg (by omega), if_neg (by omega)]
    simp [Version.to_value]
    omega

/-- Witness for C7 at `(major, minor) = (3, 4)` and `v = 35`. -/
theorem c7_version_value_witness :
    (Version.make 3 4).map Version.to_value = some 34 ∧
    (Version.from_value 35).map Version.to_value = some 35 :=
  ⟨by have := c7_version_value.1 3 4 (by decide) (by decide) (by decide)
      simpa using this,
   c7_version_value.2 35 (by decide)⟩

/-- C3 counterexample: the raw value `12` is accepted by
`from_robtop_value` (it is `≥ 10`), decodes to `Version(1, 2)`, but
re-encodes through the historical table to `3`, not `12`. -/
theorem c3_counterexample :
    (GameVersion.from_robtop_value 12).map GameVersion.to_robtop_value = some 3 ∧
    ¬ (GameVersion.from_robtop_value 12).map GameVersion.to_robtop_value = some 12 := by
  decide

/-- C3 (amended): `to_robtop_value` inverts `from_robtop_value` on the raw
values `0`, `1..7`, `10`, `11` and everything from `19` up; the accepted
values `12..18` decode to `Version(1, 2..8)`, which the historical table
re-encodes differently (`12..16 ↦ minor + 1`, `17 ↦ 10`, `18 ↦ 11`), so
the inverse law fails exactly there (`19` decodes to `Version(1, 9)`,
which falls through the table to `to_value() = 19`). -/
theorem c3_game_version_roundtrip (v : ℤ)
    (hv : v = 0 ∨ (1 ≤ v ∧ v ≤ 7) ∨ v = 10 ∨ v = 11 ∨ 19 ≤ v) :
    (GameVersion.from_robtop_value v).map GameVersion.to_robtop_value = some v := by
  rcases hv with h | h | h | h | h
  · subst h; decide
  · rw [GameVersion.from_robtop_value, if_neg (by omega), if_pos (by omega)]
    rw [Version.make, if_neg (by omega), if_neg (by omega), if_neg (by omega)]
    simp [GameVersion.to_robtop_value, Version.to_value]
    split
    · omega
    · split
      · omega
      · split
        · omega
        · omega
  · subst h; decide
  · subst h; decide
  · rw [GameVersion.from_robtop_value, if_neg (by omega), if_neg (by omega),
      if_neg (by omega), if_neg (by omega), if_neg (by omega)]
    rw [Version.from_value, Version.make,
      if_neg (by omega), if_neg (by omega), if_neg (by omega)]
    simp [GameVersion.to_robtop_value, Version.to_value]
    split_ifs <;> omega

/-- Witness for C3 (amended) at `v = 25`: decodes to `Version(2, 5)` and
re-encodes to `25`. -/
theorem c3_game_version_roundtrip_witness :
    (GameVersion.from_robtop_value 25).map GameVersion.to_robtop_value = some 25 :=
  c3_game_version_roundtrip 25 (by omega)

/-- C4: the historical table on concrete strings: `"11"` decodes to
`Version(1, 8)` and back, `"10"` to `Version(1, 7)`, `"0"` to
`Version(0, 0)`, while `"8"` and `"9"` are rejected as invalid versions. -/
theorem c4_game_version_table :
    GameVersion.from_robtop "11".toList = some ⟨1, 8⟩ ∧
    GameVersion.to_robtop ⟨1, 8⟩ = "11".toList ∧
    GameVersion.from_robtop "10".toList = some ⟨1, 7⟩ ∧
    GameVersion.from_robtop "0".toList = some ⟨0, 0⟩ ∧
    GameVersion.from_robtop "8".toList = none ∧
    GameVersion.from_robtop "9".toList = none := by
  decide

/-! ### Progress: claim C6 -/

theorem mapM_parseInt_intRepr (p : List ℤ) :
    (p.map intRepr).mapM parseInt = some p := by
  induction p with
  | nil => rfl
  | cons z t ih =>
    rw [List.map_cons, List.mapM_cons, parseInt_intRepr, ih]
    rfl

/-- C6 counterexample: the empty progress list serialises to the empty
string, whose split yields one empty field, and integer parsing of the
empty field fails — so the round trip does not return `some []`. -/
theorem c6_counterexample :
    Progress.from_robtop ',' (Progress.to_robtop ',' []) = none := by
  decide

/-- C6 (amended): for every nonempty sequence of integers, and any
separator that is not a digit and not the minus sign, parsing the RobTop
text form gives back exactly the original sequence, order and duplicates
included.  The empty sequence fails to parse back (see the
counterexample): its text form is the empty string, which splits into one
empty field that `int` rejects. -/
theorem c6_progress_roundtrip (sep : Char) (p : List ℤ)
    (h1 : sep.isDigit = false) (h2 : sep ≠ '-') (h3 : p ≠ []) :
    Progress.from_robtop sep (Progress.to_robtop sep p) = some p := by
  rw [Progress.from_robtop, Progress.to_robtop,
    List.splitOn_intercalate (p.map intRepr) sep ?hx ?hne]
  · exact mapM_parseInt_intRepr p
  case hx =>
    intro l hl hmem
    obtain ⟨z, hz, rfl⟩ := List.mem_map.mp hl
    rcases intRepr_mem hmem with h | h
    · exact h2 h
    · rw [h] at h1; exact absurd h1 (by decide)
  case hne =>
    intro h
    exact h3 (List.map_eq_nil_iff.mp h)

/-- Witness for C6 (amended) at separator `,` and `p = [10, -5]`. -/
theorem c6_progress_roundtrip_witness :
    Progress.from_robtop ',' (Progress.to_robtop ',' [10, -5]) = some [10, -5] :=
  c6_progress_roundtrip ',' [10, -5] (by decide) (by decide) (by decide)

/-! ### Binary primitives -/

theorem readU8_writeU8 {v : ℕ} {r : Bytes} (h : v < 256) :
    readU8 (writeU8 v ++ r) = some (v, r) := by
  simp [writeU8, readU8, Nat.mod_eq_of_lt h]

theorem readU16_writeU16 {v : ℕ} {r : Bytes} (h : v < 65536) :
    readU16 (writeU16 v ++ r) = some (v, r) := by
  simp only [writeU16, List.cons_append, List.nil_append, readU16]
  rw [show v % 256 + 256 * (v / 256 % 256) = v by omega]

theorem readF32_writeF32 {v : ℕ} {r : Bytes} (h : v < 4294967296) :
    readF32 (writeF32 v ++ r) = some (v, r) := by
  simp only [writeF32, List.cons_append, List.nil_append, readF32]
  rw [show v % 256 + 256 * (v / 256 % 256) + 65536 * (v / 65536 % 256) +
    16777216 * (v / 16777216 % 256) = v by omega]

theorem readU16List_flatMap (ids : List ℕ) (hids : ∀ g ∈ ids, g < 65536) (r : Bytes) :
    readU16List ids.length (ids.flatMap writeU16 ++ r) = some (ids, r) := by
  induction ids generalizing r with
  | nil => rfl
  | cons v t ih =>
    rw [List.length_cons, List.flatMap_cons, List.append_assoc]
    simp only [readU16List, readU16_writeU16 (hids v (List.mem_cons_self v t)),
      ih (fun g hg => hids g (List.mem_cons_of_mem v hg)),
      Option.bind_eq_bind, Option.some_bind]

theorem readBytes_append (content r : Bytes) :
    readBytes content.length (content ++ r) = some (content, r) := by
  induction content generalizing r with
  | nil => rfl
  | cons b t ih =>
    simp only [List.length_cons, List.cons_append, readBytes]
    rw [show t.append r = t ++ r from rfl, ih, Option.map_some']

/-! ### Bit-packing helpers -/

theorem and_8191_of_lt {z : ℕ} (hz : z < 8192) : z &&& 8191 = z := by
  rw [show (8191 : ℕ) = 2 ^ 13 - 1 by norm_num, Nat.and_pow_two_sub_one_eq_mod,
    show (2 : ℕ) ^ 13 = 8192 by norm_num, Nat.mod_eq_of_lt hz]

theorem and_32767_of_lt {b : ℕ} (hb : b < 32768) : b &&& 32767 = b := by
  rw [show (32767 : ℕ) = 2 ^ 15 - 1 by norm_num, Nat.and_pow_two_sub_one_eq_mod,
    show (2 : ℕ) ^ 15 = 32768 by norm_num, Nat.mod_eq_of_lt hb]

theorem and_8191_le {z : ℕ} : z &&& 8191 < 8192 :=
  lt_of_le_of_lt Nat.and_le_right (by norm_num)

theorem and_32767_le {b : ℕ} : b &&& 32767 < 32768 :=
  lt_of_le_of_lt Nat.and_le_right (by norm_num)

theorem zword_lt {z l : ℕ} (hl : l < 8) :
    (z &&& 8191) ||| (l <<< 13) < 65536 := by
  have h1 : z &&& 8191 < 2 ^ 16 := lt_of_lt_of_le and_8191_le (by norm_num)
  have h2 : l <<< 13 < 2 ^ 16 := by
    rw [Nat.shiftLeft_eq, show (2 : ℕ) ^ 13 = 8192 by norm_num]
    calc l * 8192 < 8 * 8192 := by omega
    _ ≤ 2 ^ 16 := by norm_num
  exact lt_of_lt_of_le (Nat.or_lt_two_pow h1 h2) (by norm_num)

theorem zword_shift (z l : ℕ) :
    ((z &&& 8191) ||| (l <<< 13)) >>> 13 = l := by
  apply Nat.eq_of_testBit_eq
  intro i
  rw [Nat.testBit_shiftRight, Nat.testBit_lor, Nat.testBit_shiftLeft]
  have h1 : z &&& 8191 < 2 ^ (13 + i) := by
    refine lt_of_lt_of_le and_8191_le ?_
    rw [show (8192 : ℕ) = 2 ^ 13 by norm_num]
    exact Nat.pow_le_pow_right (by norm_num) (by omega)
  rw [Nat.testBit_lt_two_pow h1]
  simp [Nat.le_add_right]

theorem zword_mask {z : ℕ} (l : ℕ) (hz : z < 8192) :
    ((z &&& 8191) ||| (l <<< 13)) &&& 8191 = z := by
  rw [Nat.and_distrib_right, and_8191_of_lt and_8191_le, and_8191_of_lt hz]
  have h2 : (l <<< 13) &&& 8191 = 0 := by
    rw [Nat.shiftLeft_eq, show (8191 : ℕ) = 2 ^ 13 - 1 by norm_num,
      Nat.and_pow_two_sub_one_eq_mod, Nat.mul_mod_left]
  rw [h2, Nat.or_zero]

theorem pack15_lt (b : ℕ) (d : Bool) :
    (if d then (b &&& 32767) ||| 32768 else b &&& 32767) < 65536 := by
  cases d
  · exact lt_of_lt_of_le and_32767_le (by norm_num)
  · have h1 : b &&& 32767 < 2 ^ 16 := lt_of_lt_of_le and_32767_le (by norm_num)
    have h2 : (32768 : ℕ) < 2 ^ 16 := by norm_num
    exact lt_of_lt_of_le (Nat.or_lt_two_pow h1 h2) (by norm_num)

theorem pack15_and_mask {b : ℕ} (d : Bool) (hb : b < 32768) :
    (if d then (b &&& 32767) ||| 32768 else b &&& 32767) &&& 32767 = b := by
  cases d
  · simp only [Bool.false_eq_true, if_false]
    rw [and_32767_of_lt and_32767_le, and_32767_of_lt hb]
  · simp only [if_true]
    rw [Nat.and_distrib_right, and_32767_of_lt and_32767_le,
      show (32768 : ℕ) &&& 32767 = 0 by decide, Nat.or_zero, and_32767_of_lt hb]

theorem pack15_and_flag (b : ℕ) (d : Bool) :
    ((if d then (b &&& 32767) ||| 32768 else b &&& 32767) &&& 32768 == 32768) = d := by
  have hz : (b &&& 32767) &&& 32768 = 0 := by
    rw [Nat.and_assoc, show (32767 : ℕ) &&& 32768 = 0 by decide, Nat.and_zero]
  cases d
  · simp only [Bool.false_eq_true, if_false]
    rw [hz]
    decide
  · simp only [if_true]
    rw [Nat.and_distrib_right, hz, Nat.zero_or,
      show (32768 : ℕ) &&& 32768 = 32768 by decide]
    decide

theorem object_flag_byte_lt (o : Object) : o.flag_byte < 256 := by
  obtain ⟨i1, x1, y1, r1, b1, b2, s1, b3, b4, z1, z2, e1, e2, c1, c2, v1, v2, g1, b5, b6, b7, b8, l1⟩ := o
  simp only [Object.flag_byte]
  cases b1 <;> cases b2 <;> cases b3 <;> cases b4 <;>
    cases b5 <;> cases b6 <;> cases b7 <;> cases b8 <;>
    simp [H_FLIPPED_BIT, V_FLIPPED_BIT, DO_NOT_FADE_BIT, DO_NOT_ENTER_BIT,
      GROUP_PARENT_BIT, HIGH_DETAIL_BIT, GLOW_BIT, SPECIAL_CHECKED_BIT] <;> decide

theorem object_flag_byte_bits (o : Object) :
    (o.flag_byte &&& 1 == 1) = o.h_flipped ∧
    (o.flag_byte &&& 2 == 2) = o.v_flipped ∧
    (o.flag_byte &&& 4 == 4) = o.do_not_fade ∧
    (o.flag_byte &&& 8 == 8) = o.do_not_enter ∧
    (o.flag_byte &&& 16 == 16) = o.group_parent ∧
    (o.flag_byte &&& 32 == 32) = o.high_detail ∧
    (o.flag_byte &&& 64 == 64) = o.glow ∧
    (o.flag_byte &&& 128 == 128) = o.special_checked := by
  obtain ⟨i1, x1, y1, r1, b1, b2, s1, b3, b4, z1, z2, e1, e2, c1, c2, v1, v2, g1, b5, b6, b7, b8, l1⟩ := o
  simp only [Object.flag_byte]
  cases b1 <;> cases b2 <;> cases b3 <;> cases b4 <;>
    cases b5 <;> cases b6 <;> cases b7 <;> cases b8 <;>
    simp [H_FLIPPED_BIT, V_FLIPPED_BIT, DO_NOT_FADE_BIT, DO_NOT_ENTER_BIT,
      GROUP_PARENT_BIT, HIGH_DETAIL_BIT, GLOW_BIT, SPECIAL_CHECKED_BIT] <;> decide

theorem teleport_flag_byte_lt (t : Teleport) : t.flag_byte < 256 := by
  obtain ⟨o1, f1, sm⟩ := t
  simp only [Teleport.flag_byte]
  cases sm <;> simp [SMOOTH_BIT] <;> decide

theorem teleport_flag_byte_bit (t : Teleport) :
    (t.flag_byte &&& 1 == 1) = t.smooth := by
  obtain ⟨o1, f1, sm⟩ := t
  simp only [Teleport.flag_byte]
  cases sm <;> simp [SMOOTH_BIT] <;> decide

theorem trigger_flag_byte_lt (t : Trigger) : t.flag_byte < 256 := by
  obtain ⟨o1, b1, b2, b3⟩ := t
  simp only [Trigger.flag_byte]
  cases b1 <;> cases b2 <;> cases b3 <;>
    simp [TOUCH_TRIGGERED_BIT, SPAWN_TRIGGERED_BIT, MULTI_TRIGGER_BIT] <;> decide

theorem trigger_flag_byte_bits (t : Trigger) :
    (t.flag_byte &&& 1 == 1) = t.touch_triggered ∧
    (t.flag_byte &&& 2 == 2) = t.spawn_triggered ∧
    (t.flag_byte &&& 4 == 4) = t.multi_trigger := by
  obtain ⟨o1, b1, b2, b3⟩ := t
  simp only [Trigger.flag_byte]
  cases b1 <;> cases b2 <;> cases b3 <;>
    simp [TOUCH_TRIGGERED_BIT, SPAWN_TRIGGERED_BIT, MULTI_TRIGGER_BIT] <;> decide

theorem HSV.from_to {x : HSV} (hx : x.Valid) (r : Bytes) :
    HSV.from_binary (HSV.to_binary x ++ r) = some (x, r) := by
  obtain ⟨h1, h2, h3⟩ := hx
  simp only [HSV.to_binary, List.append_assoc]
  simp only [HSV.from_binary, readU16_writeU16 h1, readU16_writeU16 h2,
    readU16_writeU16 h3, Option.bind_eq_bind, Option.some_bind]

theorem Object.from_binary_append (o : Object) (ho : o.Valid) (ids : List ℕ)
    (hids : ∀ g ∈ ids, g < 65536) (hlen : ids.length < 65536)
    (link : ℕ) (hlink : link < 65536) (r : Bytes) :
    Object.from_binary (o.header_bytes ++ (writeU16 ids.length ++
        (ids.flatMap writeU16 ++ (writeU16 link ++ r)))) =
      some ({ o with groups := ids.toFinset, link_id := link }, r) := by
  obtain ⟨hid, hx, hy, hrot, hsc, hzl, hzo, hbel, hael, hbc, hdc, hbh, hdh, hg, hgc, hl⟩ := ho
  obtain ⟨f1, f2, f3, f4, f5, f6, f7, f8⟩ := object_flag_byte_bits o
  have hfb : o.flag_byte < 256 := object_flag_byte_lt o
  have hzw : (o.z_order &&& 8191) ||| (o.z_layer <<< 13) < 65536 := zword_lt hzl
  have hlist := readU16List_flatMap ids hids (writeU16 link ++ r)
  simp only [Object.header_bytes, List.append_assoc, Z_ORDER_MASK, Z_ORDER_BITS]
  simp only [Object.from_binary, Object.read_head, Object.read_mid,
    H_FLIPPED_BIT, V_FLIPPED_BIT, DO_NOT_FADE_BIT, DO_NOT_ENTER_BIT,
    GROUP_PARENT_BIT, HIGH_DETAIL_BIT, GLOW_BIT, SPECIAL_CHECKED_BIT,
    Z_ORDER_MASK, Z_ORDER_BITS,
    readU16_writeU16 hid, readF32_writeF32 hx, readF32_writeF32 hy,
    readF32_writeF32 hrot, readF32_writeF32 hsc, readU8_writeU8 hfb,
    readU16_writeU16 hzw, readU16_writeU16 hbel, readU16_writeU16 hael,
    readU16_writeU16 hbc, readU16_writeU16 hdc,
    HSV.from_to hbh, HSV.from_to hdh,
    readU16_writeU16 hlen, hlist, readU16_writeU16 hlink,
    Option.bind_eq_bind, Option.some_bind,
    f1, f2, f3, f4, f5, f6, f7, f8,
    zword_shift, zword_mask _ hzo]

theorem Object.Valid.groups_lt {o : Object} (ho : o.Valid) : ∀ g ∈ o.groups, g < 65536 :=
  ho.2.2.2.2.2.2.2.2.2.2.2.2.2.1

theorem Object.Valid.card_lt {o : Object} (ho : o.Valid) : o.groups.card < 65536 :=
  ho.2.2.2.2.2.2.2.2.2.2.2.2.2.2.1

theorem Object.Valid.link_lt {o : Object} (ho : o.Valid) : o.link_id < 65536 :=
  ho.2.2.2.2.2.2.2.2.2.2.2.2.2.2.2

theorem object_from_to (o : Object) (ho : o.Valid) (r : Bytes) :
    Object.from_binary (o.to_binary ++ r) = some (o, r) := by
  have hg : ∀ g ∈ o.groups.sort (· ≤ ·), g < 65536 := fun g hgm =>
    ho.groups_lt g ((Finset.mem_sort _).mp hgm)
  have hlen : (o.groups.sort (· ≤ ·)).length < 65536 := by
    rw [Finset.length_sort]; exact ho.card_lt
  have h := Object.from_binary_append o ho (o.groups.sort (· ≤ ·)) hg hlen
    o.link_id ho.link_lt r
  rw [Finset.sort_toFinset, Finset.length_sort] at h
  rw [Object.to_binary]
  simp only [List.append_assoc]
  exact h

theorem coin_from_to (c : Coin) (hc : c.Valid) (r : Bytes) :
    Coin.from_binary (c.to_binary ++ r) = some (c, r) := by
  obtain ⟨ho, hcid⟩ := hc
  rw [Coin.to_binary, List.append_assoc]
  simp only [Coin.from_binary, object_from_to c.toObject ho, readU8_writeU8 hcid,
    Option.bind_eq_bind, Option.some_bind]

theorem text_from_to (t : Text) (ht : t.Valid) (r : Bytes) :
    Text.from_binary (t.to_binary ++ r) = some (t, r) := by
  obtain ⟨ho, hlen, _hb⟩ := ht
  rw [Text.to_binary, List.append_assoc, List.append_assoc]
  simp only [Text.from_binary, object_from_to t.toObject ho,
    readU16_writeU16 hlen, readBytes_append,
    Option.bind_eq_bind, Option.some_bind]

theorem teleport_from_to (t : Teleport) (ht : t.Valid) (r : Bytes) :
    Teleport.from_binary (t.to_binary ++ r) = some (t, r) := by
  obtain ⟨ho, hoff⟩ := ht
  rw [Teleport.to_binary, List.append_assoc, List.append_assoc]
  simp only [Teleport.from_binary, object_from_to t.toObject ho,
    readF32_writeF32 hoff, readU8_writeU8 (teleport_flag_byte_lt t),
    SMOOTH_BIT, teleport_flag_byte_bit t,
    Option.bind_eq_bind, Option.some_bind]

theorem animated_object_from_to (a : AnimatedObject) (ho : a.toObject.Valid) (r : Bytes) :
    AnimatedObject.from_binary (AnimatedObject.to_binary a ++ r) =
      some ({ toObject := a.toObject, randomize_start := false,
              animation_speed := 0 }, r) := by
  rw [AnimatedObject.to_binary, AnimatedObject.from_binary,
    object_from_to a.toObject ho, Option.map_some']

theorem orb_from_to (o : Orb) (ho : o.toObject.Valid) (r : Bytes) :
    Orb.from_binary (Orb.to_binary o ++ r) =
      some ({ toObject := o.toObject, multi_activate := false }, r) := by
  rw [Orb.to_binary, Orb.from_binary, object_from_to o.toObject ho, Option.map_some']

theorem CollisionBlock.pack_value_eq (cb : CollisionBlock) :
    cb.pack_value =
      (if cb.dynamic then (cb.block_id &&& 32767) ||| 32768 else cb.block_id &&& 32767) := by
  simp only [CollisionBlock.pack_value, BLOCK_ID_MASK, DYNAMIC_BIT]

theorem collision_block_from_to (cb : CollisionBlock) (hcb : cb.Valid) (r : Bytes) :
    CollisionBlock.from_binary (cb.to_binary ++ r) = some (cb, r) := by
  obtain ⟨ho, hb⟩ := hcb
  have hpl : cb.pack_value < 65536 := by
    rw [CollisionBlock.pack_value_eq]; exact pack15_lt cb.block_id cb.dynamic
  rw [CollisionBlock.to_binary, List.append_assoc]
  simp only [CollisionBlock.from_binary, object_from_to cb.toObject ho,
    readU16_writeU16 hpl, BLOCK_ID_MASK, DYNAMIC_BIT,
    Option.bind_eq_bind, Option.some_bind]
  rw [CollisionBlock.pack_value_eq, pack15_and_mask cb.dynamic hb,
    pack15_and_flag cb.block_id cb.dynamic]

theorem trigger_from_to (t : Trigger) (ht : t.Valid) (r : Bytes) :
    Trigger.from_binary (t.to_binary ++ r) = some (t, r) := by
  obtain ⟨f1, f2, f3⟩ := trigger_flag_byte_bits t
  rw [Trigger.to_binary, List.append_assoc]
  simp only [Trigger.from_binary, object_from_to t.toObject ht,
    readU8_writeU8 (trigger_flag_byte_lt t),
    TOUCH_TRIGGERED_BIT, SPAWN_TRIGGERED_BIT, MULTI_TRIGGER_BIT,
    f1, f2, f3, Option.bind_eq_bind, Option.some_bind]

theorem CollisionTrigger.pack_value_b_eq (ct : CollisionTrigger) :
    ct.pack_value_b =
      (if ct.trigger_on_exit then (ct.block_b_id &&& 32767) ||| 32768
       else ct.block_b_id &&& 32767) := by
  simp only [CollisionTrigger.pack_value_b, BLOCK_ID_MASK, TRIGGER_ON_EXIT_BIT]

theorem collision_trigger_from_to (ct : CollisionTrigger) (hct : ct.Valid) (r : Bytes) :
    CollisionTrigger.from_binary (ct.to_binary ++ r) =
      some ({ ct with activate_group := false, target_group_id := 0 }, r) := by
  obtain ⟨ho, ha, hb⟩ := hct
  have hva : ct.block_a_id &&& 32767 < 65536 :=
    lt_of_lt_of_le and_32767_le (by norm_num)
  have hpb : ct.pack_value_b < 65536 := by
    rw [CollisionTrigger.pack_value_b_eq]
    exact pack15_lt ct.block_b_id ct.trigger_on_exit
  rw [CollisionTrigger.to_binary, List.append_assoc, List.append_assoc]
  simp only [CollisionTrigger.from_binary, BLOCK_ID_MASK, TRIGGER_ON_EXIT_BIT,
    trigger_from_to ct.toTrigger ho,
    readU16_writeU16 hva, readU16_writeU16 hpb,
    Option.bind_eq_bind, Option.some_bind]
  rw [and_32767_of_lt and_32767_le, and_32767_of_lt ha,
    CollisionTrigger.pack_value_b_eq, pack15_and_mask ct.trigger_on_exit hb,
    pack15_and_flag ct.block_b_id ct.trigger_on_exit]

theorem and_bit15_beq (v : ℕ) : (v &&& 32768 == 32768) = (v &&& 32768 != 0) := by
  rw [show (32768 : ℕ) = 2 ^ 15 by norm_num, Nat.and_two_pow]
  cases v.testBit 15 <;> simp

/-- C1 counterexample: `Orb` is an object variant kind (it composes the
has-multi-activate bundle), but it defines no binary methods, so its
`multi_activate` field is not encoded: decoding the bytes produced by
encoding an orb with `multi_activate = true` yields the field reset to
`false`, not a value equal to the original. -/
theorem c1_counterexample :
    Orb.from_binary (Orb.to_binary { toObject := obj0, multi_activate := true }) =
      some ({ toObject := obj0, multi_activate := false }, []) ∧
    ({ toObject := obj0, multi_activate := false } : Orb) ≠
      { toObject := obj0, multi_activate := true } := by
  constructor
  · have h := orb_from_to { toObject := obj0, multi_activate := true } (by decide) []
    simpa using h
  · decide

/-- C1 (amended): for the variant kinds that define a binary codec — the
base `Object` and `Coin`, `Text`, `Teleport`, `CollisionBlock`, `Trigger` —
decoding the bytes produced by encoding any valid field assignment returns
a value equal to the original (groups compared as the same finite set).
`CollisionTrigger` also defines a codec, but it composes
`HasActivateGroup`/`HasTargetGroup`, whose `activate_group` and
`target_group_id` fields are never encoded: its round trip restores every
encoded field and resets those two to their defaults (`false`, `0`).  The
encoded wire form of every object lists the group ids in strictly
ascending order preceded by their count.  The claim fails outright for the
variant kinds that add fields without defining binary methods (e.g. `Orb`,
`AnimatedObject`): those encode only the inherited base fields, see the
counterexample. -/
theorem c1_binary_roundtrip :
    (∀ (o : Object) (r : Bytes), o.Valid →
        Object.from_binary (o.to_binary ++ r) = some (o, r)) ∧
    (∀ (c : Coin) (r : Bytes), c.Valid →
        Coin.from_binary (c.to_binary ++ r) = some (c, r)) ∧
    (∀ (t : Text) (r : Bytes), t.Valid →
        Text.from_binary (t.to_binary ++ r) = some (t, r)) ∧
    (∀ (t : Teleport) (r : Bytes), t.Valid →
        Teleport.from_binary (t.to_binary ++ r) = some (t, r)) ∧
    (∀ (cb : CollisionBlock) (r : Bytes), cb.Valid →
        CollisionBlock.from_binary (cb.to_binary ++ r) = some (cb, r)) ∧
    (∀ (t : Trigger) (r : Bytes), t.Valid →
        Trigger.from_binary (t.to_binary ++ r) = some (t, r)) ∧
    (∀ (ct : CollisionTrigger) (r : Bytes), ct.Valid →
        CollisionTrigger.from_binary (ct.to_binary ++ r) =
          some ({ ct with activate_group := false, target_group_id := 0 }, r)) ∧
    (∀ o : Object, ∃ l : List ℕ, l.Sorted (· < ·) ∧ l.toFinset = o.groups ∧
        Object.to_binary o = o.header_bytes ++ writeU16 l.length ++
          l.flatMap writeU16 ++ writeU16 o.link_id) := by
  refine ⟨fun o r ho => object_from_to o ho r,
          fun c r hc => coin_from_to c hc r,
          fun t r ht => text_from_to t ht r,
          fun t r ht => teleport_from_to t ht r,
          fun cb r hcb => collision_block_from_to cb hcb r,
          fun t r ht => trigger_from_to t ht r,
          fun ct r hct => collision_trigger_from_to ct hct r,
          fun o => ⟨o.groups.sort (· ≤ ·), Finset.sort_sorted_lt o.groups,
            Finset.sort_toFinset _ o.groups, ?_⟩⟩
  rw [Finset.length_sort, Object.to_binary]

/-- Witness for C1 at a concrete object with groups `{5, 3, 9}` (the spec
scenario: the wire then carries count 3 and the ids in order 3, 5, 9). -/
theorem c1_binary_roundtrip_witness :
    Object.from_binary (Object.to_binary { obj0 with groups := {3, 5, 9} } ++ []) =
      some ({ obj0 with groups := {3, 5, 9} }, []) :=
  c1_binary_roundtrip.1 { obj0 with groups := {3, 5, 9} } [] (by decide)

/-- C2 counterexample: an `AnimatedObject` with `randomize_start = true`
and a non-zero animation speed encodes to exactly the base-object bytes
(nothing is appended after the base fields), and decoding those bytes
returns the two fields at their defaults, not the original values. -/
theorem c2_counterexample :
    AnimatedObject.to_binary
        { toObject := obj0, randomize_start := true, animation_speed := 1065353216 } =
      Object.to_binary obj0 ∧
    AnimatedObject.from_binary (AnimatedObject.to_binary
        { toObject := obj0, randomize_start := true, animation_speed := 1065353216 }) =
      some ({ toObject := obj0, randomize_start := false, animation_speed := 0 }, []) ∧
    ({ toObject := obj0, randomize_start := false, animation_speed := 0 } : AnimatedObject) ≠
      { toObject := obj0, randomize_start := true, animation_speed := 1065353216 } := by
  refine ⟨rfl, ?_, by decide⟩
  have h := animated_object_from_to
    { toObject := obj0, randomize_start := true, animation_speed := 1065353216 }
    (by decide) []
  simpa using h

/-- C2 (amended): `AnimatedObject` declares `randomize_start` and
`animation_speed` but defines no binary methods, so encoding emits exactly
the inherited base-`Object` fields — nothing is appended — and decoding
the encoded bytes returns the two fields at their declared defaults
(`False`, `0.0`) instead of reading them back. -/
theorem c2_animated_object_codec :
    (∀ a : AnimatedObject, AnimatedObject.to_binary a = Object.to_binary a.toObject) ∧
    (∀ (a : AnimatedObject) (r : Bytes), a.toObject.Valid →
        AnimatedObject.from_binary (AnimatedObject.to_binary a ++ r) =
          some ({ toObject := a.toObject, randomize_start := false,
                  animation_speed := 0 }, r)) :=
  ⟨fun _ => rfl, fun a r ho => animated_object_from_to a ho r⟩

/-- Witness for C2 at a concrete animated object. -/
theorem c2_animated_object_codec_witness :
    AnimatedObject.from_binary (AnimatedObject.to_binary
        { toObject := obj0, randomize_start := true, animation_speed := 7 } ++ []) =
      some ({ toObject := obj0, randomize_start := false, animation_speed := 0 }, []) :=
  c2_animated_object_codec.2
    { toObject := obj0, randomize_start := true, animation_speed := 7 } [] (by decide)

/-- C5: decoding a `CollisionBlock` whose trailing packed word is any
16-bit value `v` recovers `block_id = v &&& 0x7FFF` and
`dynamic = ((v &&& 0x8000) ≠ 0)`; encoding writes the trailing word
`(block_id &&& 0x7FFF) ||| (0x8000 if dynamic else 0)`. -/
theorem c5_collision_block_packing :
    (∀ (v : ℕ) (r : Bytes), v < 65536 →
      CollisionBlock.from_binary (Object.to_binary obj0 ++ (writeU16 v ++ r)) =
        some ({ toObject := obj0, block_id := v &&& 32767,
                dynamic := v &&& 32768 != 0 }, r)) ∧
    (∀ cb : CollisionBlock,
      CollisionBlock.to_binary cb = Object.to_binary cb.toObject ++
        writeU16 ((cb.block_id &&& 32767) ||| (if cb.dynamic then 32768 else 0))) := by
  constructor
  · intro v r hv
    simp only [CollisionBlock.from_binary, object_from_to obj0 (by decide),
      readU16_writeU16 hv, BLOCK_ID_MASK, DYNAMIC_BIT, and_bit15_beq,
      Option.bind_eq_bind, Option.some_bind]
  · intro cb
    rw [CollisionBlock.to_binary, CollisionBlock.pack_value_eq]
    cases hd : cb.dynamic <;> simp [hd]

/-- Witness for C5 at `v = 40000` (bit 15 set, so `dynamic` decodes to
`true` and the block id to `40000 &&& 0x7FFF = 7232`). -/
theorem c5_collision_block_packing_witness :
    CollisionBlock.from_binary (Object.to_binary obj0 ++ (writeU16 40000 ++ [])) =
      some ({ toObject := obj0, block_id := 40000 &&& 32767,
              dynamic := 40000 &&& 32768 != 0 }, []) :=
  c5_collision_block_packing.1 40000 [] (by norm_num)

/-- C10: a wire image whose group count is `ids.length` but whose id list
contains duplicates decodes to a group set smaller than the count, and
re-encoding that object writes the set's cardinality — not the original
count — before the ascending id list.  Decode-then-re-encode is therefore
not length-preserving on such input, while the decoded set is exactly the
set of ids read. -/
theorem c10_duplicate_groups (ids : List ℕ) (hids : ∀ g ∈ ids, g < 65536)
    (hlen : ids.length < 65536) (hdup : ¬ ids.Nodup) :
    Object.from_binary (Object.header_bytes obj0 ++ (writeU16 ids.length ++
        (ids.flatMap writeU16 ++ (writeU16 0 ++ [])))) =
      some ({ obj0 with groups := ids.toFinset, link_id := 0 }, []) ∧
    ids.toFinset.card < ids.length ∧
    Object.to_binary { obj0 with groups := ids.toFinset, link_id := 0 } =
      Object.header_bytes { obj0 with groups := ids.toFinset, link_id := 0 } ++
        writeU16 ids.toFinset.card ++
        (ids.toFinset.sort (· ≤ ·)).flatMap writeU16 ++ writeU16 0 := by
  refine ⟨Object.from_binary_append obj0 (by decide) ids hids hlen 0 (by norm_num) [],
          ?_, rfl⟩
  have hc : ids.toFinset.card = ids.dedup.length := List.card_toFinset ids
  have hsub : ids.dedup.length ≤ ids.length := (List.dedup_sublist ids).length_le
  rcases lt_or_eq_of_le hsub with h | h
  · omega
  · exact absurd (List.dedup_eq_self.mp ((List.dedup_sublist ids).eq_of_length h)) hdup

/-- Witness for C10 at the duplicated id list `[3, 3]`. -/
theorem c10_duplicate_groups_witness :
    Object.from_binary (Object.header_bytes obj0 ++ (writeU16 ([3, 3] : List ℕ).length ++
        (([3, 3] : List ℕ).flatMap writeU16 ++ (writeU16 0 ++ [])))) =
      some ({ obj0 with groups := ([3, 3] : List ℕ).toFinset, link_id := 0 }, []) ∧
    ([3, 3] : List ℕ).toFinset.card < ([3, 3] : List ℕ).length ∧
    Object.to_binary { obj0 with groups := ([3, 3] : List ℕ).toFinset, link_id := 0 } =
      Object.header_bytes { obj0 with groups := ([3, 3] : List ℕ).toFinset, link_id := 0 } ++
        writeU16 ([3, 3] : List ℕ).toFinset.card ++
        (([3, 3] : List ℕ).toFinset.sort (· ≤ ·)).flatMap writeU16 ++ writeU16 0 :=
  c10_duplicate_groups [3, 3] (by decide) (by decide) (by decide)

/-! ### Recordings: claims C8 and C9 -/

theorem digit_ne_dot {c : Char} (hc : c.isDigit = true) : c ≠ '.' := by
  intro h
  rw [h] at hc
  exact absurd hc (by decide)

theorem digit_ne_dash {c : Char} (hc : c.isDigit = true) : c ≠ '-' := by
  intro h
  rw [h] at hc
  exact absurd hc (by decide)

theorem parseNat_isSome {s : List Char} (h1 : s ≠ []) (h2 : s.all Char.isDigit = true) :
    (parseNat s).isSome := by
  rw [parseNat, if_pos ⟨h1, h2⟩]
  rfl

theorem splitOn_dot_single {l : List Char} (h : ∀ x ∈ l, x ≠ '.') :
    l.splitOn '.' = [l] := by
  rw [show l.splitOn '.' = l.splitOnP (· == '.') from rfl]
  exact List.splitOnP_eq_single _ _ (by simpa using h)

theorem parse_float_single {c : Char} (hc : c.isDigit = true) :
    (parse_float [c]).isSome := by
  have hs : ([c] : List Char).splitOn '.' = [[c]] :=
    splitOn_dot_single (fun x hx => by
      rw [List.mem_singleton] at hx
      subst hx
      exact digit_ne_dot hc)
  obtain ⟨n, hn⟩ := Option.isSome_iff_exists.mp
    (parseNat_isSome (s := [c]) (by simp) (by simp [hc]))
  simp [parse_float, hs, hn]

theorem parse_float_frac {c : Char} {ds : List Char} (hc : c.isDigit = true)
    (hds : ds.all Char.isDigit = true) :
    (parse_float (c :: '.' :: ds)).isSome := by
  have hsplit : (c :: '.' :: ds).splitOn '.' = [[c], ds] := by
    rw [show c :: '.' :: ds = ['.'].intercalate [[c], ds] by simp [List.intercalate]]
    refine List.splitOn_intercalate _ _ ?_ (by simp)
    intro l hl
    rcases List.mem_cons.mp hl with h | h
    · subst h
      simpa using (digit_ne_dot hc).symm
    · simp at h
      subst h
      intro hmem
      have := List.all_eq_true.mp hds _ hmem
      exact absurd this (by decide)
  obtain ⟨n, hn⟩ := Option.isSome_iff_exists.mp
    (parseNat_isSome (s := [c]) (by simp) (by simp [hc]))
  simp [parse_float, hsplit, hds, hn]

theorem matchTimestamp_some {s ts rest : List Char}
    (h : matchTimestamp s = some (ts, rest)) :
    (parse_float ts).isSome ∧ rest.length < s.length := by
  rw [matchTimestamp.eq_def] at h
  split at h
  · rename_i c r
    split at h
    · rename_i hc
      split at h
      · rename_i u
        rw [Option.some.injEq, Prod.mk.injEq] at h
        obtain ⟨hts, hrest⟩ := h
        subst hts
        subst hrest
        constructor
        · exact parse_float_frac hc
            (List.all_eq_true.mpr fun x hx => List.mem_takeWhile_imp hx)
        · have := (List.dropWhile_sublist (l := u) Char.isDigit).length_le
          simp only [List.length_cons]
          omega
      · rw [Option.some.injEq, Prod.mk.injEq] at h
        obtain ⟨hts, hrest⟩ := h
        subst hts
        subst hrest
        exact ⟨parse_float_single hc, by simp⟩
    · exact absurd h (by simp)
  · exact absurd h (by simp)

theorem matchNextSep_some {sep one : Char} {s : List Char}
    {nx : Option (List Char)} {s3 : List Char}
    (h : matchNextSep sep one s = some (nx, s3)) :
    (nx = none ∨ nx = some [one]) ∧ s3.length < s.length := by
  rw [matchNextSep.eq_def] at h
  split at h
  · split at h
    · rw [Option.some.injEq, Prod.mk.injEq] at h
      obtain ⟨h1, h2⟩ := h
      subst h1; subst h2
      exact ⟨Or.inr rfl, by simp only [List.length_cons]; omega⟩
    · split at h
      · rw [Option.some.injEq, Prod.mk.injEq] at h
        obtain ⟨h1, h2⟩ := h
        subst h1; subst h2
        exact ⟨Or.inl rfl, by simp only [List.length_cons]; omega⟩
      · exact absurd h (by simp)
  · split at h
    · rw [Option.some.injEq, Prod.mk.injEq] at h
      obtain ⟨h1, h2⟩ := h
      subst h1; subst h2
      exact ⟨Or.inl rfl, by simp⟩
    · exact absurd h (by simp)
  · exact absurd h (by simp)

theorem matchSecondary_snd_length (s : List Char) :
    (matchSecondary s).2.length ≤ s.length := by
  rw [matchSecondary.eq_def]
  split
  · simp
  · exact le_rfl

theorem matchCore_some {sep one : Char} {s : List Char} {g : RecordingMatch}
    {rest : List Char} (h : matchCore sep one s = some (g, rest)) :
    g.previous = none ∧
    (∃ ts, g.timestamp = some ts ∧ (parse_float ts).isSome) ∧
    (g.next = none ∨ g.next = some [one]) ∧ rest.length < s.length := by
  rw [matchCore.eq_def] at h
  split at h
  · exact absurd h (by simp)
  · rename_i ts s1 hts
    split at h
    · exact absurd h (by simp)
    · rename_i c s2
      split at h
      · split at h
        · exact absurd h (by simp)
        · rename_i nx s3 hnx
          rcases hsec : matchSecondary s3 with ⟨sec, s4⟩
          rw [hsec] at h
          rw [Option.some.injEq, Prod.mk.injEq] at h
          obtain ⟨hg, hrest⟩ := h
          subst hg
          subst hrest
          have hl1 := (matchTimestamp_some hts).2
          have hl2 := (matchNextSep_some hnx).2
          have hl3 : s4.length ≤ s3.length := by
            have := matchSecondary_snd_length s3
            rw [hsec] at this
            exact this
          refine ⟨rfl, ⟨ts, rfl, (matchTimestamp_some hts).1⟩,
            (matchNextSep_some hnx).1, ?_⟩
          simp only [List.length_cons] at hl1
          omega
      · exact absurd h (by simp)

theorem matchItem_some {sep one : Char} {s : List Char} {g : RecordingMatch}
    {rest : List Char} (h : matchItem sep one s = some (g, rest)) :
    (g.previous = none ∨ g.previous = some [one]) ∧
    (∃ ts, g.timestamp = some ts ∧ (parse_float ts).isSome) ∧
    (g.next = none ∨ g.next = some [one]) ∧ rest.length < s.length := by
  rw [matchItem.eq_def] at h
  split at h
  · rename_i a b t
    split at h
    · split at h
      · rename_i g2 rest2 hcore
        rw [Option.some.injEq, Prod.mk.injEq] at h
        obtain ⟨hg, hrest⟩ := h
        subst hg
        subst hrest
        obtain ⟨_, h2, h3, h4⟩ := matchCore_some hcore
        refine ⟨Or.inr rfl, h2, h3, ?_⟩
        simp only [List.length_cons]
        omega
      · obtain ⟨h1, h2, h3, h4⟩ := matchCore_some h
        exact ⟨Or.inl h1, h2, h3, h4⟩
    · obtain ⟨h1, h2, h3, h4⟩ := matchCore_some h
      exact ⟨Or.inl h1, h2, h3, h4⟩
  · obtain ⟨h1, h2, h3, h4⟩ := matchCore_some h
    exact ⟨Or.inl h1, h2, h3, h4⟩

theorem find_matches_aux_shape {sep one : Char} :
    ∀ (f : ℕ) (s : List Char), ∀ g ∈ find_matches_aux sep one f s,
      (g.previous = none ∨ g.previous = some [one]) ∧
      (∃ ts, g.timestamp = some ts ∧ (parse_float ts).isSome) ∧
      (g.next = none ∨ g.next = some [one]) := by
  intro f
  induction f with
  | zero =>
    intro s g hg
    simp [find_matches_aux] at hg
  | succ f ih =>
    intro s g hg
    cases s with
    | nil => simp [find_matches_aux] at hg
    | cons c t =>
      rw [find_matches_aux] at hg
      rcases hm : matchItem sep one (c :: t) with _ | ⟨g2, rest⟩ <;> rw [hm] at hg
      · exact ih t g hg
      · rcases List.mem_cons.mp hg with hgg | hgt
        · subst hgg
          obtain ⟨h1, h2, h3, _⟩ := matchItem_some hm
          exact ⟨h1, h2, h3⟩
        · exact ih rest g hgt

theorem find_matches_aux_fuel {sep one : Char} :
    ∀ (f1 f2 : ℕ) (s : List Char), s.length ≤ f1 → s.length ≤ f2 →
      find_matches_aux sep one f1 s = find_matches_aux sep one f2 s := by
  intro f1
  induction f1 with
  | zero =>
    intro f2 s h1 h2
    have hs : s = [] := List.eq_nil_of_length_eq_zero (by omega)
    subst hs
    cases f2 <;> rfl
  | succ f ih =>
    intro f2 s h1 h2
    cases s with
    | nil => cases f2 <;> rfl
    | cons c t =>
      obtain ⟨f2p, rfl⟩ : ∃ k, f2 = k + 1 :=
        ⟨f2 - 1, by simp only [List.length_cons] at h2; omega⟩
      rw [find_matches_aux, find_matches_aux]
      rcases hm : matchItem sep one (c :: t) with _ | ⟨g, rest⟩
      · simp only [List.length_cons] at h1 h2
        exact ih f2p t (by omega) (by omega)
      · have hlen := (matchItem_some hm).2.2.2
        simp only [List.length_cons] at h1 h2 hlen
        show g :: find_matches_aux sep one f rest = g :: find_matches_aux sep one f2p rest
        rw [ih f2p rest (by omega) (by omega)]

/-- A fuel of the input length is always enough for the `finditer` scan:
`Recording.find_matches` does not depend on the fuel bound. -/
theorem find_matches_fuel (sep one : Char) (s : List Char) (f : ℕ)
    (hf : s.length ≤ f) :
    find_matches_aux sep one f s = Recording.find_matches sep one s :=
  find_matches_aux_fuel f s.length s hf le_rfl

theorem int_bool_one {one : Char} (hone : one.isDigit = true) :
    ∃ b, int_bool [one] = some b := by
  rw [int_bool, parseInt_cons_of_ne [] (digit_ne_dash hone)]
  obtain ⟨n, hn⟩ := Option.isSome_iff_exists.mp
    (parseNat_isSome (s := [one]) (by simp) (by simp [hone]))
  rw [hn]
  exact ⟨_, rfl⟩

theorem from_robtop_match_isSome {one : Char} (hone : one.isDigit = true)
    {g : RecordingMatch}
    (h1 : g.previous = none ∨ g.previous = some [one])
    (h2 : ∃ ts, g.timestamp = some ts ∧ (parse_float ts).isSome)
    (h3 : g.next = none ∨ g.next = some [one]) :
    (RecordingItem.from_robtop_match g).isSome := by
  obtain ⟨ts, hts, hpf⟩ := h2
  obtain ⟨q, hq⟩ := Option.isSome_iff_exists.mp hpf
  obtain ⟨b0, hb0⟩ := int_bool_one hone
  rw [RecordingItem.from_robtop_match]
  rcases h1 with hp | hp <;> rcases h3 with hn | hn <;> rw [hp, hn] <;>
    simp [hts, hq, hb0]

theorem mapM_eq_filterMap {α β : Type} (f : α → Option β) :
    ∀ l : List α, (∀ a ∈ l, (f a).isSome) → l.mapM f = some (l.filterMap f) := by
  intro l
  induction l with
  | nil => intro _; rfl
  | cons a t ih =>
    intro h
    obtain ⟨b, hb⟩ := Option.isSome_iff_exists.mp (h a (List.mem_cons_self a t))
    rw [List.mapM_cons, ih (fun x hx => h x (List.mem_cons_of_mem a hx)),
      List.filterMap_cons, hb]
    rfl

theorem den_three_halves : ((3 : ℚ) / 2).den = 2 := by
  rw [show (3 : ℚ) / 2 = ((3 : ℤ) : ℚ) / ((2 : ℤ) : ℚ) by norm_num]
  exact_mod_cast @Rat.den_div_eq_of_coprime 3 2 (by norm_num) (by decide)

theorem three_halves_times_ten : (3 : ℚ) / 2 * 10 ^ 1 = 15 := by norm_num

theorem float_str_three_halves : float_str ((3 : ℚ) / 2) = ['1', '.', '5'] := by
  have h0 : ¬ (((3 : ℚ) / 2 * 10 ^ 0).den = 1) := by
    rw [pow_zero, mul_one, den_three_halves]
    omega
  have h1 : ((3 : ℚ) / 2 * 10 ^ 1).den = 1 := by
    rw [three_halves_times_ten]
    exact rfl
  have hnum : ((3 : ℚ) / 2 * 10 ^ 1).num = 15 := by
    rw [three_halves_times_ten]
    exact rfl
  simp only [float_str]
  rw [show List.range 65 = 0 :: 1 :: List.range' 2 63 from by decide]
  rw [List.find?_cons_of_neg _ (by simpa using h0),
    List.find?_cons_of_pos _ (by simpa using h1)]
  simp only [Option.getD_some, max_self]
  rw [hnum]
  decide

theorem parse_float_one_five : parse_float ['1', '.', '5'] = some ((3 : ℚ) / 2) := by
  have hsplit : (['1', '.', '5'] : List Char).splitOn '.' = [['1'], ['5']] := by decide
  have hpn : parseNat ['1'] = some 1 := by decide
  have h5 : digitVal '5' = 5 := by decide
  simp only [parse_float, hsplit]
  rw [if_pos (by decide)]
  simp only [hpn, Option.bind_eq_bind, Option.some_bind, Option.pure_def,
    Option.map_some', Option.some.injEq, List.foldl_cons, List.foldl_nil,
    List.length_cons, List.length_nil, h5]
  norm_num

theorem from_robtop_one_five :
    RecordingItem.from_robtop ';' '1' "1;1.5;;".toList =
      some ⟨(3 : ℚ) / 2, true, false, false⟩ := by
  have hmatch : matchItem ';' '1' "1;1.5;;".toList =
      some ({ previous := some ['1'], timestamp := some ['1', '.', '5'],
              next := none, secondary := none }, []) := by decide
  have hib : int_bool ['1'] = some true := by decide
  simp only [RecordingItem.from_robtop]
  rw [hmatch]
  show RecordingItem.from_robtop_match
      { previous := some ['1'], timestamp := some ['1', '.', '5'],
        next := none, secondary := none } = _
  simp only [RecordingItem.from_robtop_match, hib, parse_float_one_five,
    Option.bind_eq_bind, Option.some_bind, Option.isSome_none]

/-- C8: the spec scenario — `RecordingItem(timestamp = 1.5,
previous = true, next = false, secondary = false)` serialises to
previous-marker, separator, `"1.5"`, separator, separator (the next
marker is omitted but its separator is still emitted, and no secondary
token appears), and parsing that exact string yields the identical
item. -/
theorem c8_recording_item_scenario :
    RecordingItem.to_robtop ';' '1' ⟨(3 : ℚ) / 2, true, false, false⟩ = "1;1.5;;".toList ∧
    RecordingItem.from_robtop ';' '1' "1;1.5;;".toList =
      some ⟨(3 : ℚ) / 2, true, false, false⟩ := by
  constructor
  · simp only [RecordingItem.to_robtop, RecordingItem.to_robtop_tokens,
      float_str_three_halves]
    decide
  · exact from_robtop_one_five

/-- C9: `Recording.from_robtop` is total: for every input string, and any
digit affirmative marker, parsing never fails — the result is exactly the
item of each left-to-right non-overlapping match of the item grammar, in
order — and an input with no grammar match yields the empty recording
rather than an error. -/
theorem c9_recording_parse_total (sep one : Char) (hone : one.isDigit = true) :
    (∀ s : List Char, Recording.from_robtop sep one s =
        some ((Recording.find_matches sep one s).filterMap
          RecordingItem.from_robtop_match)) ∧
    (∀ s : List Char, Recording.find_matches sep one s = [] →
        Recording.from_robtop sep one s = some []) := by
  have main : ∀ s : List Char, Recording.from_robtop sep one s =
      some ((Recording.find_matches sep one s).filterMap
        RecordingItem.from_robtop_match) := by
    intro s
    rw [Recording.from_robtop]
    refine mapM_eq_filterMap _ _ (fun g hg => ?_)
    rw [Recording.find_matches] at hg
    obtain ⟨h1, h2, h3⟩ := find_matches_aux_shape s.length s g hg
    exact from_robtop_match_isSome hone h1 h2 h3
  exact ⟨main, fun s h => by rw [Recording.from_robtop, h]; rfl⟩

/-- Witness for C9 at a match-free input: parsing `"abc"` yields the empty
recording, not an error. -/
theorem c9_recording_parse_total_witness :
    Recording.from_robtop ';' '1' "abc".toList = some [] :=
  (c9_recording_parse_total ';' '1' (by decide)).2 "abc".toList (by decide)
